import Mathlib

/-!
Verification of the stina-ext-mail ingestion core against its specification.

The definitions below are a shallow embedding of the TypeScript sources:
  * `src/db/processedRepository.ts` — the Processed collection and its
    operations (`markProcessed`, `tryMarkProcessed`, `getHighestUid`);
  * `src/polling.ts` — `syncAccountBaseline` and `handleNewEmail`;
  * `src/imap/client.ts` — `isTransientError`, `calculateBackoffDelay`,
    `formatImapError`, `withRetry`, `fetchNewEmails`;
  * `src/providers/generic-imap.ts` — `getImapConfig`;
  * `src/oauth/device-code.js` (unnamed part) — `refreshAccessToken`;
  * `src/oauth/gmail.js` (unnamed part) and `src/credentials.ts` —
    `isGmailTokenExpired`, `refreshCredentials`, `ensureFreshCredentials`.

Host-storage semantics (document KV with `get`/`put`/`find`/`findOne`) are
modelled by association lists keyed by document id.  `Date.now()` style
clocks enter as explicit parameters; document timestamp fields that no
claim mentions are left out of the document records.  The random part of
`generateId` is modelled by a per-store counter producing ids distinct
from every deterministic id, which is the behaviour the generator is
relied upon for.
-/

namespace StinaMail

/-- Document id of a Processed row: either a generated id
(`prc_<timestamp><random>`, modelled by a counter index) or the
deterministic id `prc_<accountId>_<messageId>` used by
`tryMarkProcessed`. -/
inductive DocId where
  | gen (n : Nat)
  | det (accountId messageId : String)
deriving DecidableEq, Repr

/-- A document of the `processed` collection
(`ProcessedDocument` in `processedRepository.ts`; the `processedAt`
timestamp is not modelled, no claim mentions it). -/
structure ProcessedDoc where
  id : DocId
  accountId : String
  messageId : String
  uid : Nat
deriving DecidableEq, Repr

/-- State of the `processed` collection: its documents plus the counter
feeding generated ids. -/
structure ProcStore where
  docs : List ProcessedDoc
  nextGen : Nat
deriving DecidableEq, Repr

/-- The empty `processed` collection. -/
def ProcStore.empty : ProcStore := ⟨[], 0⟩

/-- `storage.put(coll, id, doc)`: replace the document stored under `id`,
or append the document if `id` is not present. -/
def putDoc (docs : List ProcessedDoc) (i : DocId) (d : ProcessedDoc) :
    List ProcessedDoc :=
  if docs.any (fun x => x.id = i) then
    docs.map (fun x => if x.id = i then d else x)
  else
    docs ++ [d]

/-- `storage.get(coll, id)`: look a document up by id. -/
def getDoc (docs : List ProcessedDoc) (i : DocId) : Option ProcessedDoc :=
  docs.find? (fun x => x.id = i)

/-- `storage.findOne(coll, {accountId, messageId})`: first document
matching the (account, message-id) pair. -/
def findOnePair (docs : List ProcessedDoc) (a m : String) :
    Option ProcessedDoc :=
  docs.find? (fun x => x.accountId = a ∧ x.messageId = m)

/-- `ProcessedRepository.markProcessed`: no-op when a document for the
(account, message-id) pair exists, otherwise insert a document under a
freshly generated id. -/
def markProcessed (a m : String) (u : Nat) (s : ProcStore) : ProcStore :=
  match findOnePair s.docs a m with
  | some _ => s
  | none =>
      { docs := putDoc s.docs (DocId.gen s.nextGen)
          ⟨DocId.gen s.nextGen, a, m, u⟩,
        nextGen := s.nextGen + 1 }

/-- `ProcessedRepository.tryMarkProcessed`: `get` the deterministic id
`prc_<account>_<messageId>`; return `false` if present, otherwise `put`
a document under that id and return `true`. -/
def tryMarkProcessed (a m : String) (u : Nat) (s : ProcStore) :
    ProcStore × Bool :=
  match getDoc s.docs (DocId.det a m) with
  | some _ => (s, false)
  | none =>
      ({ docs := putDoc s.docs (DocId.det a m) ⟨DocId.det a m, a, m, u⟩,
         nextGen := s.nextGen }, true)

/-- `ProcessedRepository.getHighestUid`: `find` restricted to the account
sorted by uid descending with limit 1, i.e. the maximal uid over the
account's documents, or 0 when there are none. -/
def getHighestUid (a : String) (s : ProcStore) : Nat :=
  (s.docs.filter (fun d => d.accountId = a)).foldr (fun d acc => max d.uid acc) 0

/-- Number of documents stored for one (account, message-id) pair. -/
def pairCount (s : ProcStore) (a m : String) : Nat :=
  (s.docs.filter (fun d => d.accountId = a ∧ d.messageId = m)).length

/-- One operation against the Processed collection. -/
inductive ProcOp where
  | mark (a m : String) (u : Nat)
  | tryMark (a m : String) (u : Nat)
deriving DecidableEq, Repr

/-- Apply one operation to the store (the Boolean result of
`tryMarkProcessed` is dropped here). -/
def applyOp (op : ProcOp) (s : ProcStore) : ProcStore :=
  match op with
  | .mark a m u => markProcessed a m u s
  | .tryMark a m u => (tryMarkProcessed a m u s).1

/-- Run a sequence of operations from the empty collection. -/
def runOps (ops : List ProcOp) : ProcStore :=
  ops.foldl (fun s op => applyOp op s) ProcStore.empty

/-- Number of `tryMarkProcessed` calls on the key `(a, m)` that return
`true` when the operation sequence `ops` is executed from state `s`. -/
def trueCountFrom (s : ProcStore) (ops : List ProcOp) (a m : String) : Nat :=
  match ops with
  | [] => 0
  | op :: rest =>
      match op with
      | .mark a' m' u => trueCountFrom (markProcessed a' m' u s) rest a m
      | .tryMark a' m' u =>
          let r := tryMarkProcessed a' m' u s
          (if a' = a ∧ m' = m ∧ r.2 then 1 else 0) + trueCountFrom r.1 rest a m

/-- `ProcessedRepository.isProcessed`: a document for the pair exists. -/
def isProcessed (a m : String) (s : ProcStore) : Bool :=
  (findOnePair s.docs a m).isSome

/-- Generated ids already stored are strictly below the generator counter;
holds for every store reachable from the empty one and makes the next
generated id fresh. -/
def GenBounded (s : ProcStore) : Prop :=
  ∀ d ∈ s.docs, ∀ n, d.id = DocId.gen n → n < s.nextGen

/-- IMAP security setting of a generic account (`'ssl'|'starttls'|'none'`). -/
inductive ImapSecurity where
  | ssl
  | starttls
  | none
deriving DecidableEq, Repr

/-- The fields of `MailAccount` that the verified paths read.  Numeric and
string fields that JavaScript may leave `null` are `Option`s. -/
structure MailAccount where
  id : String
  email : String
  imapHost : Option String
  imapPort : Option Int
  imapSecurity : Option ImapSecurity
  enabled : Bool
deriving DecidableEq, Repr

/-- The fields of an `EmailMessage` that dedup and delivery read
(the remaining fields only feed the formatted instruction text). -/
structure EmailMessage where
  messageId : String
  uid : Nat
deriving DecidableEq, Repr

/-- State touched by the ingestion path: the `processed` collection, the
process-wide `sessionInitializedAccounts` set, and the ordered list of
`appendInstruction` calls as (accountId, messageId) pairs. -/
structure IngestState where
  store : ProcStore
  sessionInitializedAccounts : List String
  delivered : List (String × String)
deriving DecidableEq, Repr

/-- `Math.max(...emails.map(e => e.uid))` over a non-empty list
(0 when the list is empty; the source only takes it on non-empty input). -/
def maxUid (es : List EmailMessage) : Nat :=
  es.foldl (fun acc e => max acc e.uid) 0

/-- `syncAccountBaseline` from `polling.ts`: bail out when the account is
missing or disabled, fetch with `since = 0`, and mark the email carrying
the highest UID as processed (no delivery). -/
def syncAccountBaseline (account : Option MailAccount)
    (fetch : Nat → List EmailMessage) (accountId : String)
    (st : IngestState) : IngestState :=
  match account with
  | Option.none => st
  | some acc =>
      if acc.enabled then
        if 0 < (fetch 0).length then
          match (fetch 0).find? (fun e => e.uid = maxUid (fetch 0)) with
          | some latestEmail =>
              { st with
                store := markProcessed accountId latestEmail.messageId
                  latestEmail.uid st.store }
          | Option.none => st
        else st
      else st

/-- The claim/deliver loop of `handleNewEmail` (`for (const email of
emails)`): attempt `tryMarkProcessed` for each email and keep, in order,
exactly those for which the claim succeeded. -/
def processEmails (a : String) :
    List EmailMessage → ProcStore → ProcStore × List EmailMessage
  | [], s => (s, [])
  | e :: rest, s =>
      match tryMarkProcessed a e.messageId e.uid s with
      | (s', true) =>
          let next := processEmails a rest s'
          (next.1, e :: next.2)
      | (s', false) => processEmails a rest s'

/-- `handleNewEmail` from `polling.ts`.  `chatAvailable` models whether
`deps.chat` is wired; `account` is the result of re-loading the account;
`fetch` is the provider's `fetchNewEmails` for a given `since` UID.
Settings/profile reads and `updateSyncStatus` have no effect on the
modelled state. -/
def handleNewEmail (chatAvailable : Bool) (account : Option MailAccount)
    (fetch : Nat → List EmailMessage) (accountId : String)
    (st : IngestState) : IngestState :=
  if chatAvailable then
    match account with
    | Option.none => st
    | some acc =>
        if acc.enabled then
          if getHighestUid accountId st.store = 0 then
            { syncAccountBaseline (some acc) fetch accountId st with
              sessionInitializedAccounts :=
                (syncAccountBaseline (some acc) fetch accountId
                  st).sessionInitializedAccounts.insert accountId }
          else if accountId ∉ st.sessionInitializedAccounts then
            syncAccountBaseline (some acc) fetch accountId
              { st with sessionInitializedAccounts :=
                  st.sessionInitializedAccounts.insert accountId }
          else
            { st with
              store := (processEmails accountId
                (fetch (getHighestUid accountId st.store)) st.store).1,
              delivered := st.delivered ++
                (processEmails accountId
                  (fetch (getHighestUid accountId st.store)) st.store).2.map
                  (fun e => (accountId, e.messageId)) }
        else st
  else st

/-- The `appendInstruction` calls `handleNewEmail` added beyond those
already recorded in the starting state. -/
def newlyDelivered (st st' : IngestState) : List (String × String) :=
  st'.delivered.drop st.delivered.length

/-! ### Storage lemmas -/

theorem self_mem_putDoc (docs : List ProcessedDoc) (i : DocId)
    (d : ProcessedDoc) : d ∈ putDoc docs i d := by
  unfold putDoc
  split
  · next h =>
    rw [List.any_eq_true] at h
    obtain ⟨x, hx, hxi⟩ := h
    simp only [decide_eq_true_eq] at hxi
    exact List.mem_map.mpr ⟨x, hx, by simp [hxi]⟩
  · exact List.mem_append_right _ (List.mem_singleton.mpr rfl)

theorem mem_of_mem_putDoc {docs : List ProcessedDoc} {i : DocId}
    {d y : ProcessedDoc} (h : y ∈ putDoc docs i d) : y ∈ docs ∨ y = d := by
  unfold putDoc at h
  split at h
  · obtain ⟨x, hx, hxy⟩ := List.mem_map.mp h
    by_cases hxi : x.id = i
    · right; simp [hxi] at hxy; exact hxy.symm
    · left; simp [hxi] at hxy; exact hxy ▸ hx
  · rcases List.mem_append.mp h with h' | h'
    · exact Or.inl h'
    · exact Or.inr (List.mem_singleton.mp h')

theorem find?_id_cons_pos {j : DocId} {x : ProcessedDoc}
    (xs : List ProcessedDoc) (h : x.id = j) :
    (x :: xs).find? (fun y => decide (y.id = j)) = some x :=
  List.find?_cons_of_pos xs (by simpa using h)

theorem find?_id_cons_neg {j : DocId} {x : ProcessedDoc}
    (xs : List ProcessedDoc) (h : ¬ x.id = j) :
    (x :: xs).find? (fun y => decide (y.id = j))
      = xs.find? (fun y => decide (y.id = j)) :=
  List.find?_cons_of_neg xs (by simpa using h)

theorem find?_id_map_replace (xs : List ProcessedDoc) (i j : DocId)
    (d : ProcessedDoc) (hd : d.id = i) (hne : j ≠ i) :
    (xs.map (fun x => if x.id = i then d else x)).find?
        (fun x => decide (x.id = j))
      = xs.find? (fun x => decide (x.id = j)) := by
  have hdj : ¬ d.id = j := by rw [hd]; exact fun h => hne h.symm
  induction xs with
  | nil => rfl
  | cons x xs ih =>
    rw [List.map_cons]
    by_cases hxi : x.id = i
    · have hxj : ¬ x.id = j := by rw [hxi]; exact fun h => hne h.symm
      rw [if_pos hxi, find?_id_cons_neg _ hdj, find?_id_cons_neg _ hxj, ih]
    · rw [if_neg hxi]
      by_cases hxj : x.id = j
      · rw [find?_id_cons_pos _ hxj, find?_id_cons_pos _ hxj]
      · rw [find?_id_cons_neg _ hxj, find?_id_cons_neg _ hxj, ih]

theorem find?_id_append_single (xs : List ProcessedDoc) (j : DocId)
    (d : ProcessedDoc) :
    (xs ++ [d]).find? (fun x => decide (x.id = j))
      = ((xs.find? (fun x => decide (x.id = j))).orElse
          (fun _ => [d].find? (fun x => decide (x.id = j)))) := by
  induction xs with
  | nil => rfl
  | cons x xs ih =>
    by_cases hxj : x.id = j
    · rw [List.cons_append, find?_id_cons_pos _ hxj, find?_id_cons_pos _ hxj]
      rfl
    · rw [List.cons_append, find?_id_cons_neg _ hxj, find?_id_cons_neg _ hxj,
        ih]

theorem getDoc_putDoc_ne {docs : List ProcessedDoc} {i j : DocId}
    {d : ProcessedDoc} (hd : d.id = i) (hne : j ≠ i) :
    getDoc (putDoc docs i d) j = getDoc docs j := by
  have hdj : ¬ d.id = j := by rw [hd]; exact fun h => hne h.symm
  unfold putDoc getDoc
  split
  · exact find?_id_map_replace docs i j d hd hne
  · rw [find?_id_append_single, show ([d].find? (fun x => decide (x.id = j)))
        = Option.none from find?_id_cons_neg _ hdj]
    cases docs.find? (fun x => decide (x.id = j)) <;> rfl

theorem getDoc_putDoc_self {docs : List ProcessedDoc} {i : DocId}
    {d : ProcessedDoc} (hd : d.id = i) :
    getDoc (putDoc docs i d) i = some d := by
  unfold putDoc getDoc
  split
  · next h =>
    induction docs with
    | nil => simp at h
    | cons y ys ih =>
      rw [List.map_cons]
      by_cases hyi : y.id = i
      · rw [if_pos hyi, find?_id_cons_pos _ hd]
      · rw [if_neg hyi, find?_id_cons_neg _ hyi]
        apply ih
        simp only [List.any_cons, Bool.or_eq_true, decide_eq_true_eq] at h
        rcases h with h | h
        · exact absurd h hyi
        · simpa using h
  · next h =>
    rw [find?_id_append_single]
    have hnone : docs.find? (fun x => decide (x.id = i)) = Option.none := by
      rw [List.find?_eq_none]
      intro x hx
      simp only [Bool.not_eq_true] at h
      rw [List.any_eq_false] at h
      have := h x hx
      simpa using this
    rw [hnone, show ([d].find? (fun x => decide (x.id = i))) = some d from
      find?_id_cons_pos _ hd]
    rfl

theorem getDoc_isSome_putDoc {docs : List ProcessedDoc} {i j : DocId}
    {d : ProcessedDoc} (hd : d.id = i)
    (h : (getDoc docs j).isSome = true) :
    (getDoc (putDoc docs i d) j).isSome = true := by
  by_cases hji : j = i
  · subst hji; rw [getDoc_putDoc_self hd]; rfl
  · rw [getDoc_putDoc_ne hd hji]; exact h

theorem getDoc_none_of_putDoc_none {docs : List ProcessedDoc} {i j : DocId}
    {d : ProcessedDoc} (hd : d.id = i)
    (h : getDoc (putDoc docs i d) j = Option.none) :
    getDoc docs j = Option.none := by
  by_cases hji : j = i
  · subst hji; rw [getDoc_putDoc_self hd] at h; cases h
  · rwa [getDoc_putDoc_ne hd hji] at h

theorem det_isSome_markProcessed {s : ProcStore} {a m : String}
    (a' m' : String) (u : Nat)
    (h : (getDoc s.docs (DocId.det a m)).isSome = true) :
    (getDoc (markProcessed a' m' u s).docs (DocId.det a m)).isSome = true := by
  unfold markProcessed
  cases hf : findOnePair s.docs a' m' with
  | some d => exact h
  | none => exact getDoc_isSome_putDoc rfl h

theorem det_isSome_tryMark {s : ProcStore} {a m : String}
    (a' m' : String) (u : Nat)
    (h : (getDoc s.docs (DocId.det a m)).isSome = true) :
    (getDoc (tryMarkProcessed a' m' u s).1.docs (DocId.det a m)).isSome
      = true := by
  unfold tryMarkProcessed
  cases hg : getDoc s.docs (DocId.det a' m') with
  | some d => exact h
  | none => exact getDoc_isSome_putDoc rfl h

theorem trueCountFrom_eq_zero {s : ProcStore} {a m : String}
    (ops : List ProcOp)
    (h : (getDoc s.docs (DocId.det a m)).isSome = true) :
    trueCountFrom s ops a m = 0 := by
  induction ops generalizing s with
  | nil => rfl
  | cons op rest ih =>
    cases op with
    | mark a' m' u =>
      show trueCountFrom (markProcessed a' m' u s) rest a m = 0
      exact ih (det_isSome_markProcessed a' m' u h)
    | tryMark a' m' u =>
      show (if a' = a ∧ m' = m ∧ (tryMarkProcessed a' m' u s).2 then 1 else 0)
          + trueCountFrom (tryMarkProcessed a' m' u s).1 rest a m = 0
      by_cases hk : a' = a ∧ m' = m
      · obtain ⟨ha, hm⟩ := hk
        subst ha; subst hm
        obtain ⟨d, hd⟩ := Option.isSome_iff_exists.mp h
        have hr : tryMarkProcessed a' m' u s = (s, false) := by
          unfold tryMarkProcessed; rw [hd]
        rw [hr]
        simp only [Bool.false_eq_true, and_false, if_false, Nat.zero_add]
        exact ih h
      · rw [if_neg (fun hc => hk ⟨hc.1, hc.2.1⟩), Nat.zero_add]
        exact ih (det_isSome_tryMark a' m' u h)

theorem trueCountFrom_le_one (s : ProcStore) (ops : List ProcOp)
    (a m : String) : trueCountFrom s ops a m ≤ 1 := by
  induction ops generalizing s with
  | nil => exact Nat.zero_le 1
  | cons op rest ih =>
    cases op with
    | mark a' m' u =>
      show trueCountFrom (markProcessed a' m' u s) rest a m ≤ 1
      exact ih _
    | tryMark a' m' u =>
      show (if a' = a ∧ m' = m ∧ (tryMarkProcessed a' m' u s).2 then 1 else 0)
          + trueCountFrom (tryMarkProcessed a' m' u s).1 rest a m ≤ 1
      cases hg : getDoc s.docs (DocId.det a' m') with
      | some d =>
        have hr : tryMarkProcessed a' m' u s = (s, false) := by
          unfold tryMarkProcessed; rw [hg]
        rw [hr]
        simp only [Bool.false_eq_true, and_false, if_false, Nat.zero_add]
        exact ih s
      | none =>
        have hr : tryMarkProcessed a' m' u s
            = ({ docs := putDoc s.docs (DocId.det a' m')
                   ⟨DocId.det a' m', a', m', u⟩,
                 nextGen := s.nextGen }, true) := by
          unfold tryMarkProcessed; rw [hg]
        rw [hr]
        by_cases hk : a' = a ∧ m' = m
        · have hdet : DocId.det a m = DocId.det a' m' := by
            rw [hk.1, hk.2]
          have hpres : (getDoc (putDoc s.docs (DocId.det a' m')
              ⟨DocId.det a' m', a', m', u⟩) (DocId.det a m)).isSome = true := by
            rw [hdet, @getDoc_putDoc_self s.docs (DocId.det a' m')
              ⟨DocId.det a' m', a', m', u⟩ rfl]
            rfl
          rw [if_pos ⟨hk.1, hk.2, rfl⟩, trueCountFrom_eq_zero rest hpres]
        · rw [if_neg (fun hc => hk ⟨hc.1, hc.2.1⟩), Nat.zero_add]
          exact ih _

theorem tryMark_of_getDoc_some {s : ProcStore} {a m : String} {u : Nat}
    {d : ProcessedDoc} (hg : getDoc s.docs (DocId.det a m) = some d) :
    tryMarkProcessed a m u s = (s, false) := by
  unfold tryMarkProcessed; rw [hg]

theorem tryMark_of_getDoc_none {s : ProcStore} {a m : String} {u : Nat}
    (hg : getDoc s.docs (DocId.det a m) = Option.none) :
    tryMarkProcessed a m u s
      = ({ docs := putDoc s.docs (DocId.det a m) ⟨DocId.det a m, a, m, u⟩,
           nextGen := s.nextGen }, true) := by
  unfold tryMarkProcessed; rw [hg]

theorem processEmails_fst_isSome {a : String} {j : DocId}
    (es : List EmailMessage) :
    ∀ {s : ProcStore}, (getDoc s.docs j).isSome = true →
      (getDoc (processEmails a es s).1.docs j).isSome = true := by
  induction es with
  | nil => intro s h; exact h
  | cons e rest ih =>
    intro s h
    cases hg : getDoc s.docs (DocId.det a e.messageId) with
    | some d =>
      rw [show processEmails a (e :: rest) s = processEmails a rest s by
        simp only [processEmails]; rw [tryMark_of_getDoc_some hg]]
      exact ih h
    | none =>
      rw [show processEmails a (e :: rest) s
          = ((processEmails a rest (tryMarkProcessed a e.messageId e.uid s).1).1,
             e :: (processEmails a rest
               (tryMarkProcessed a e.messageId e.uid s).1).2) by
        simp only [processEmails]; rw [tryMark_of_getDoc_none hg]]
      rw [tryMark_of_getDoc_none hg]
      exact ih (getDoc_isSome_putDoc rfl h)

theorem processEmails_spec (a : String) (es : List EmailMessage) :
    ∀ s : ProcStore,
      (∀ e ∈ (processEmails a es s).2,
          getDoc s.docs (DocId.det a e.messageId) = Option.none ∧
          (getDoc (processEmails a es s).1.docs
            (DocId.det a e.messageId)).isSome = true) ∧
      ((processEmails a es s).2.map (fun e => e.messageId)).Nodup := by
  induction es with
  | nil =>
    intro s
    exact ⟨fun e he => absurd he (List.not_mem_nil e), List.nodup_nil⟩
  | cons e rest ih =>
    intro s
    cases hg : getDoc s.docs (DocId.det a e.messageId) with
    | some d =>
      rw [show processEmails a (e :: rest) s = processEmails a rest s by
        simp only [processEmails]; rw [tryMark_of_getDoc_some hg]]
      exact ih s
    | none =>
      have hr := tryMark_of_getDoc_none (u := e.uid) hg
      set s' : ProcStore :=
        { docs := putDoc s.docs (DocId.det a e.messageId)
            ⟨DocId.det a e.messageId, a, e.messageId, e.uid⟩,
          nextGen := s.nextGen } with hs'
      have hself : (getDoc s'.docs (DocId.det a e.messageId)).isSome
          = true := by
        rw [hs', @getDoc_putDoc_self s.docs (DocId.det a e.messageId)
          ⟨DocId.det a e.messageId, a, e.messageId, e.uid⟩ rfl]
        rfl
      have hstep : processEmails a (e :: rest) s
          = ((processEmails a rest s').1, e :: (processEmails a rest s').2) := by
        simp only [processEmails]; rw [hr]
      rw [hstep]
      obtain ⟨ihmem, ihnodup⟩ := ih s'
      refine ⟨?_, ?_⟩
      · intro x hx
        rcases List.mem_cons.mp hx with hxe | hxr
        · subst hxe
          exact ⟨hg, processEmails_fst_isSome rest hself⟩
        · obtain ⟨hnone', hsome'⟩ := ihmem x hxr
          rw [hs'] at hnone'
          have hnone2 : getDoc (putDoc s.docs (DocId.det a e.messageId)
              ⟨DocId.det a e.messageId, a, e.messageId, e.uid⟩)
              (DocId.det a x.messageId) = Option.none := hnone'
          exact ⟨@getDoc_none_of_putDoc_none s.docs (DocId.det a e.messageId)
            (DocId.det a x.messageId)
            ⟨DocId.det a e.messageId, a, e.messageId, e.uid⟩ rfl hnone2,
            hsome'⟩
      · rw [List.map_cons, List.nodup_cons]
        refine ⟨?_, ihnodup⟩
        intro hmem
        obtain ⟨x, hxr, hxid⟩ := List.mem_map.mp hmem
        obtain ⟨hnone', _⟩ := ihmem x hxr
        rw [hxid] at hnone'
        rw [hnone'] at hself
        cases hself

theorem syncAccountBaseline_delivered (account : Option MailAccount)
    (fetch : Nat → List EmailMessage) (a : String) (st : IngestState) :
    (syncAccountBaseline account fetch a st).delivered = st.delivered ∧
    (syncAccountBaseline account fetch a st).sessionInitializedAccounts
      = st.sessionInitializedAccounts := by
  refine ⟨?_, ?_⟩ <;>
  · unfold syncAccountBaseline
    split
    · rfl
    · split
      · split
        · split <;> rfl
        · rfl
      · rfl

theorem newlyDelivered_eq_nil {st st' : IngestState}
    (h : st'.delivered = st.delivered) : newlyDelivered st st' = [] := by
  unfold newlyDelivered; rw [h, List.drop_length]

theorem newlyDelivered_of_append {st st' : IngestState}
    {l : List (String × String)} (h : st'.delivered = st.delivered ++ l) :
    newlyDelivered st st' = l := by
  unfold newlyDelivered; rw [h, List.drop_left]

theorem delivered_unchanged_spec {st st' : IngestState}
    (P : String × String → Prop) (h : st'.delivered = st.delivered) :
    st'.delivered = st.delivered ++ newlyDelivered st st' ∧
    ∀ p ∈ newlyDelivered st st', P p := by
  rw [newlyDelivered_eq_nil h]
  exact ⟨by rw [h, List.append_nil],
    fun p hp => absurd hp (List.not_mem_nil p)⟩

theorem handleNewEmail_delivered_eq (ch : Bool)
    (account : Option MailAccount) (fetch : Nat → List EmailMessage)
    (a : String) (st : IngestState) :
    (handleNewEmail ch account fetch a st).delivered = st.delivered ∨
    ((handleNewEmail ch account fetch a st).delivered
        = st.delivered
          ++ ((processEmails a (fetch (getHighestUid a st.store))
              st.store).2.map (fun e => (a, e.messageId))) ∧
      (handleNewEmail ch account fetch a st).store
        = (processEmails a (fetch (getHighestUid a st.store)) st.store).1) := by
  unfold handleNewEmail
  split
  · split
    · exact Or.inl rfl
    · split
      · split
        · exact Or.inl
            (syncAccountBaseline_delivered _ fetch a st).1
        · split
          · refine Or.inl ?_
            rw [(syncAccountBaseline_delivered _ fetch a _).1]
          · exact Or.inr ⟨rfl, rfl⟩

      · exact Or.inl rfl
  · exact Or.inl rfl

/-- C1: across any sequence of operations on the Processed collection,
`tryMarkProcessed` returns `true` at most once for a given
(account, message-id) key, and `handleNewEmail` calls `appendInstruction`
for a message only after a successful claim: every newly delivered pair
belongs to the handled account, its deterministic claim document was
absent before the handler ran and is present afterwards. -/
theorem try_claim_at_most_once_and_delivery_after_claim
    (s : ProcStore) (ops : List ProcOp) (a m : String)
    (ch : Bool) (account : Option MailAccount)
    (fetch : Nat → List EmailMessage) (st : IngestState) :
    trueCountFrom s ops a m ≤ 1 ∧
    ((handleNewEmail ch account fetch a st).delivered
      = st.delivered ++ newlyDelivered st (handleNewEmail ch account fetch a st)) ∧
    (∀ p ∈ newlyDelivered st (handleNewEmail ch account fetch a st),
        p.1 = a ∧
        getDoc st.store.docs (DocId.det a p.2) = Option.none ∧
        (getDoc (handleNewEmail ch account fetch a st).store.docs
          (DocId.det a p.2)).isSome = true) := by
  refine ⟨trueCountFrom_le_one s ops a m, ?_⟩
  rcases handleNewEmail_delivered_eq ch account fetch a st with h | ⟨hdel, hstore⟩
  · exact delivered_unchanged_spec _ h
  · have hnew := newlyDelivered_of_append hdel
    refine ⟨by rw [hnew]; exact hdel, ?_⟩
    intro p hp
    rw [hnew] at hp
    obtain ⟨e, he, hpe⟩ := List.mem_map.mp hp
    obtain ⟨hnone, hsome⟩ :=
      (processEmails_spec a (fetch (getHighestUid a st.store)) st.store).1 e he
    subst hpe
    exact ⟨rfl, hnone, by rw [hstore]; exact hsome⟩

/-- C5: the Processed collection is NOT unique by (account, message-id)
under mixed operations: `markProcessed` inserts under a generated id and
dedupes by a pair query, while `tryMarkProcessed` checks only the
deterministic id, so `markProcessed "a" "m" 1` followed by
`tryMarkProcessed "a" "m" 1` leaves two documents for the pair — and the
second call returns `true` although the email was already marked,
contradicting `tryMarkProcessed`'s own documentation. -/
theorem markProcessed_then_tryMark_duplicates :
    pairCount (runOps [ProcOp.mark "a" "m" 1, ProcOp.tryMark "a" "m" 1])
        "a" "m" = 2 ∧
    (tryMarkProcessed "a" "m" 1 (runOps [ProcOp.mark "a" "m" 1])).2 = true := by
  decide

theorem putDoc_fresh {docs : List ProcessedDoc} {i : DocId}
    (d : ProcessedDoc) (h : docs.any (fun x => decide (x.id = i)) = false) :
    putDoc docs i d = docs ++ [d] := by
  unfold putDoc
  rw [if_neg (by rw [h]; exact Bool.false_ne_true)]

theorem any_id_eq_false_of_genBounded {s : ProcStore} (hs : GenBounded s) :
    s.docs.any (fun x => decide (x.id = DocId.gen s.nextGen)) = false := by
  rw [List.any_eq_false]
  intro d hd
  simp only [decide_eq_true_eq]
  intro hid
  exact absurd (hs d hd s.nextGen hid) (lt_irrefl _)

theorem any_id_eq_false_of_getDoc_none {docs : List ProcessedDoc}
    {i : DocId} (h : getDoc docs i = Option.none) :
    docs.any (fun x => decide (x.id = i)) = false := by
  unfold getDoc at h
  rw [List.find?_eq_none] at h
  rw [List.any_eq_false]
  intro d hd
  exact h d hd

theorem applyOp_shape (op : ProcOp) (s : ProcStore) (hs : GenBounded s) :
    ((applyOp op s).docs = s.docs ∨
      ∃ d, (applyOp op s).docs = s.docs ++ [d]) ∧
    GenBounded (applyOp op s) := by
  cases op with
  | mark a m u =>
    simp only [applyOp]
    unfold markProcessed
    cases hf : findOnePair s.docs a m with
    | some d => exact ⟨Or.inl rfl, hs⟩
    | none =>
      have hput : putDoc s.docs (DocId.gen s.nextGen)
          ⟨DocId.gen s.nextGen, a, m, u⟩
          = s.docs ++ [⟨DocId.gen s.nextGen, a, m, u⟩] :=
        putDoc_fresh _ (any_id_eq_false_of_genBounded hs)
      refine ⟨Or.inr ⟨_, hput⟩, ?_⟩
      intro d hd n hid
      have hd' : d ∈ s.docs ++ [(⟨DocId.gen s.nextGen, a, m, u⟩ :
          ProcessedDoc)] := by
        have hd0 : d ∈ putDoc s.docs (DocId.gen s.nextGen)
            ⟨DocId.gen s.nextGen, a, m, u⟩ := hd
        rwa [hput] at hd0
      rcases List.mem_append.mp hd' with h1 | h2
      · exact Nat.lt_succ_of_lt (hs d h1 n hid)
      · rw [List.mem_singleton] at h2
        subst h2
        simp only at hid
        injection hid with h
        rw [← h]
        exact Nat.lt_succ_self _
  | tryMark a m u =>
    simp only [applyOp]
    unfold tryMarkProcessed
    cases hg : getDoc s.docs (DocId.det a m) with
    | some d => exact ⟨Or.inl rfl, hs⟩
    | none =>
      have hput : putDoc s.docs (DocId.det a m) ⟨DocId.det a m, a, m, u⟩
          = s.docs ++ [⟨DocId.det a m, a, m, u⟩] :=
        putDoc_fresh _ (any_id_eq_false_of_getDoc_none hg)
      refine ⟨Or.inr ⟨_, hput⟩, ?_⟩
      intro d hd n hid
      have hd' : d ∈ s.docs ++ [(⟨DocId.det a m, a, m, u⟩ :
          ProcessedDoc)] := by
        have hd0 : d ∈ putDoc s.docs (DocId.det a m)
            ⟨DocId.det a m, a, m, u⟩ := hd
        rwa [hput] at hd0
      rcases List.mem_append.mp hd' with h1 | h2
      · exact hs d h1 n hid
      · rw [List.mem_singleton] at h2
        subst h2
        simp only at hid
        cases hid

theorem foldr_max_mono (l : List ProcessedDoc) {b c : Nat} (h : b ≤ c) :
    l.foldr (fun d acc => max d.uid acc) b
      ≤ l.foldr (fun d acc => max d.uid acc) c := by
  induction l with
  | nil => exact h
  | cons x xs ih => exact max_le_max (le_refl x.uid) ih

theorem getHighestUid_mono_of_append {s s' : ProcStore}
    {d : ProcessedDoc} (a : String) (h : s'.docs = s.docs ++ [d]) :
    getHighestUid a s ≤ getHighestUid a s' := by
  unfold getHighestUid
  rw [h, List.filter_append, List.foldr_append]
  exact foldr_max_mono _ (Nat.zero_le _)

theorem getHighestUid_le_applyOp (op : ProcOp) (s : ProcStore) (a : String)
    (hs : GenBounded s) :
    getHighestUid a s ≤ getHighestUid a (applyOp op s) := by
  rcases (applyOp_shape op s hs).1 with h | ⟨d, h⟩
  · unfold getHighestUid; rw [h]
  · exact getHighestUid_mono_of_append a h

theorem genBounded_empty : GenBounded ProcStore.empty :=
  fun d hd => absurd hd (List.not_mem_nil d)

theorem genBounded_foldl (ops : List ProcOp) :
    ∀ s : ProcStore, GenBounded s →
      GenBounded (ops.foldl (fun s op => applyOp op s) s) := by
  induction ops with
  | nil => exact fun s hs => hs
  | cons op rest ih => exact fun s hs => ih _ ((applyOp_shape op s hs).2)

theorem genBounded_runOps (ops : List ProcOp) : GenBounded (runOps ops) :=
  genBounded_foldl ops ProcStore.empty genBounded_empty

/-- C4: the per-account watermark `getHighestUid` never decreases when a
further `markProcessed` or `tryMarkProcessed` operation is appended to
any operation sequence run from the empty Processed collection. -/
theorem getHighestUid_monotone (ops : List ProcOp) (op : ProcOp)
    (a : String) :
    getHighestUid a (runOps ops) ≤ getHighestUid a (runOps (ops ++ [op])) := by
  have hrw : runOps (ops ++ [op]) = applyOp op (runOps ops) := by
    unfold runOps; rw [List.foldl_append]; rfl
  rw [hrw]
  exact getHighestUid_le_applyOp op _ a (genBounded_runOps ops)

theorem le_foldl_maxUid (es : List EmailMessage) (b : Nat) :
    b ≤ es.foldl (fun acc e => max acc e.uid) b := by
  induction es generalizing b with
  | nil => exact le_refl b
  | cons e rest ih => exact le_trans (le_max_left b e.uid) (ih _)

theorem uid_le_foldl_maxUid {x : EmailMessage} {es : List EmailMessage}
    (b : Nat) (hx : x ∈ es) :
    x.uid ≤ es.foldl (fun acc e => max acc e.uid) b := by
  induction es generalizing b with
  | nil => exact absurd hx (List.not_mem_nil x)
  | cons e rest ih =>
    rcases List.mem_cons.mp hx with hxe | hxr
    · subst hxe
      exact le_trans (le_max_right b x.uid) (le_foldl_maxUid rest _)
    · exact ih _ hxr

theorem foldl_maxUid_attained (es : List EmailMessage) (b : Nat) :
    es.foldl (fun acc e => max acc e.uid) b = b ∨
    ∃ x ∈ es, es.foldl (fun acc e => max acc e.uid) b = x.uid := by
  induction es generalizing b with
  | nil => exact Or.inl rfl
  | cons e rest ih =>
    rcases ih (max b e.uid) with h | ⟨x, hx, h⟩
    · rcases max_choice b e.uid with hm | hm
      · exact Or.inl (by rw [List.foldl_cons, h, hm])
      · exact Or.inr ⟨e, List.mem_cons_self e rest,
          by rw [List.foldl_cons, h, hm]⟩
    · exact Or.inr ⟨x, List.mem_cons_of_mem e hx, h⟩

theorem maxUid_mem {es : List EmailMessage} (h : es ≠ []) :
    ∃ x ∈ es, x.uid = maxUid es := by
  rcases foldl_maxUid_attained es 0 with h0 | ⟨x, hx, hfx⟩
  · obtain ⟨e, rest, rfl⟩ := List.exists_cons_of_ne_nil h
    refine ⟨e, List.mem_cons_self e rest, ?_⟩
    have hle : e.uid ≤ maxUid (e :: rest) :=
      uid_le_foldl_maxUid 0 (List.mem_cons_self e rest)
    unfold maxUid at *
    rw [h0] at hle ⊢
    exact Nat.le_zero.mp hle
  · exact ⟨x, hx, hfx.symm⟩

theorem maxUid_find? {es : List EmailMessage} (h : es ≠ []) :
    ∃ e, es.find? (fun x => decide (x.uid = maxUid es)) = some e ∧
      e ∈ es ∧ e.uid = maxUid es := by
  obtain ⟨x, hx, hxu⟩ := maxUid_mem h
  have hsome : (es.find? (fun x => decide (x.uid = maxUid es))).isSome
      = true :=
    List.find?_isSome.mpr ⟨x, hx, by simpa using hxu⟩
  obtain ⟨e, he⟩ := Option.isSome_iff_exists.mp hsome
  refine ⟨e, he, List.mem_of_find?_eq_some he, ?_⟩
  have := List.find?_some he
  simpa using this

theorem isProcessed_markProcessed_self (a m : String) (u : Nat)
    (s : ProcStore) : isProcessed a m (markProcessed a m u s) = true := by
  unfold isProcessed markProcessed
  cases hf : findOnePair s.docs a m with
  | some d => unfold findOnePair at hf ⊢; rw [hf]; rfl
  | none =>
    unfold findOnePair
    apply (List.find?_isSome).mpr
    refine ⟨⟨DocId.gen s.nextGen, a, m, u⟩, self_mem_putDoc _ _ _, by simp⟩

theorem processEmails_all_new (a : String) (es : List EmailMessage) :
    ∀ s : ProcStore,
      (∀ e ∈ es, getDoc s.docs (DocId.det a e.messageId) = Option.none) →
      (es.map (fun e => e.messageId)).Nodup →
      (processEmails a es s).2 = es := by
  induction es with
  | nil => intro s _ _; rfl
  | cons e rest ih =>
    intro s hall hnodup
    have hg : getDoc s.docs (DocId.det a e.messageId) = Option.none :=
      hall e (List.mem_cons_self e rest)
    have hr := tryMark_of_getDoc_none (u := e.uid) hg
    have hstep : processEmails a (e :: rest) s
        = ((processEmails a rest
              { docs := putDoc s.docs (DocId.det a e.messageId)
                  ⟨DocId.det a e.messageId, a, e.messageId, e.uid⟩,
                nextGen := s.nextGen }).1,
           e :: (processEmails a rest
              { docs := putDoc s.docs (DocId.det a e.messageId)
                  ⟨DocId.det a e.messageId, a, e.messageId, e.uid⟩,
                nextGen := s.nextGen }).2) := by
      simp only [processEmails]; rw [hr]
    rw [hstep]
    rw [List.map_cons, List.nodup_cons] at hnodup
    refine congrArg (e :: ·) (ih _ ?_ hnodup.2)
    intro x hx
    have hxm : x.messageId ≠ e.messageId := by
      intro hEq
      exact hnodup.1 (List.mem_map.mpr ⟨x, hx, hEq⟩)
    have hdet : DocId.det a x.messageId ≠ DocId.det a e.messageId := by
      intro hEq
      injection hEq with h1 h2
      exact hxm h2
    show getDoc (putDoc s.docs (DocId.det a e.messageId)
        ⟨DocId.det a e.messageId, a, e.messageId, e.uid⟩)
        (DocId.det a x.messageId) = Option.none
    rw [@getDoc_putDoc_ne s.docs (DocId.det a e.messageId)
      (DocId.det a x.messageId)
      ⟨DocId.det a e.messageId, a, e.messageId, e.uid⟩ rfl hdet]
    exact hall x (List.mem_cons_of_mem e hx)

theorem syncAccountBaseline_empty_fetch (acc : MailAccount)
    (fetch : Nat → List EmailMessage) (a : String) (st : IngestState)
    (hfe : fetch 0 = []) :
    syncAccountBaseline (some acc) fetch a st = st := by
  show (if acc.enabled = true
        then (if 0 < (fetch 0).length
              then _
              else st)
        else st) = st
  rw [hfe]
  simp

theorem syncAccountBaseline_nonempty (acc : MailAccount)
    (fetch : Nat → List EmailMessage) (a : String) (st : IngestState)
    (hen : acc.enabled = true) (hne : fetch 0 ≠ []) :
    ∃ e, e ∈ fetch 0 ∧ e.uid = maxUid (fetch 0) ∧
      syncAccountBaseline (some acc) fetch a st
        = { st with store := markProcessed a e.messageId e.uid st.store } := by
  obtain ⟨e, hfind, hmem, huid⟩ := maxUid_find? hne
  refine ⟨e, hmem, huid, ?_⟩
  have hlen : 0 < (fetch 0).length := List.length_pos.mpr hne
  show (if acc.enabled = true
        then (if 0 < (fetch 0).length
              then (match (fetch 0).find?
                  (fun e => decide (e.uid = maxUid (fetch 0))) with
                | some latestEmail =>
                    { st with store :=
                        (markProcessed a latestEmail.messageId
                          latestEmail.uid st.store) }
                | Option.none => st)
              else st)
        else st) = _
  rw [if_pos hen, if_pos hlen, hfind]

theorem handleNewEmail_baseline (acc : MailAccount)
    (fetch : Nat → List EmailMessage) (a : String) (st : IngestState)
    (hen : acc.enabled = true) (h0 : getHighestUid a st.store = 0) :
    handleNewEmail true (some acc) fetch a st
      = { syncAccountBaseline (some acc) fetch a st with
          sessionInitializedAccounts :=
            (syncAccountBaseline (some acc) fetch a
              st).sessionInitializedAccounts.insert a } := by
  show (if acc.enabled = true
        then (if getHighestUid a st.store = 0 then _ else _)
        else st) = _
  rw [if_pos hen, if_pos h0]

theorem handleNewEmail_restart (acc : MailAccount)
    (fetch : Nat → List EmailMessage) (a : String) (st : IngestState)
    (hen : acc.enabled = true) (h0 : getHighestUid a st.store ≠ 0)
    (hni : a ∉ st.sessionInitializedAccounts) :
    handleNewEmail true (some acc) fetch a st
      = syncAccountBaseline (some acc) fetch a
          { st with sessionInitializedAccounts :=
              st.sessionInitializedAccounts.insert a } := by
  show (if acc.enabled = true
        then (if getHighestUid a st.store = 0 then _
              else (if a ∉ st.sessionInitializedAccounts then _ else _))
        else st) = _
  rw [if_pos hen, if_neg h0, if_pos hni]

theorem handleNewEmail_deliver (acc : MailAccount)
    (fetch : Nat → List EmailMessage) (a : String) (st : IngestState)
    (hen : acc.enabled = true) (h0 : getHighestUid a st.store ≠ 0)
    (hmem : a ∈ st.sessionInitializedAccounts) :
    handleNewEmail true (some acc) fetch a st
      = { st with
          store := (processEmails a (fetch (getHighestUid a st.store))
            st.store).1,
          delivered := st.delivered ++
            (processEmails a (fetch (getHighestUid a st.store))
              st.store).2.map (fun e => (a, e.messageId)) } := by
  show (if acc.enabled = true
        then (if getHighestUid a st.store = 0 then _
              else (if a ∉ st.sessionInitializedAccounts then _ else _))
        else st) = _
  rw [if_pos hen, if_neg h0, if_neg (not_not_intro hmem)]

/-- C2: for an enabled account with no Processed rows (watermark 0), a
new-mail event runs the baseline sync: no instruction is delivered, an
empty mailbox leaves the store unchanged, and otherwise exactly one
Processed row is created — for the highest-UID fetched message — leaving
a positive watermark. -/
theorem baseline_sync_no_delivery (acc : MailAccount)
    (fetch : Nat → List EmailMessage) (st : IngestState) (a : String)
    (hen : acc.enabled = true)
    (hwf : GenBounded st.store)
    (hempty : st.store.docs.filter (fun d => decide (d.accountId = a)) = [])
    (hpos : ∀ e ∈ fetch 0, 1 ≤ e.uid) :
    (handleNewEmail true (some acc) fetch a st).delivered = st.delivered ∧
    (fetch 0 = [] →
      (handleNewEmail true (some acc) fetch a st).store = st.store) ∧
    (fetch 0 ≠ [] →
      ∃ e, e ∈ fetch 0 ∧ e.uid = maxUid (fetch 0) ∧
        (handleNewEmail true (some acc) fetch a st).store.docs.filter
            (fun d => decide (d.accountId = a))
          = [⟨DocId.gen st.store.nextGen, a, e.messageId, e.uid⟩] ∧
        0 < getHighestUid a (handleNewEmail true (some acc) fetch a
          st).store) := by
  have h0 : getHighestUid a st.store = 0 := by
    unfold getHighestUid
    rw [show st.store.docs.filter (fun d => decide (d.accountId = a))
      = [] from hempty]
    rfl
  have hH := handleNewEmail_baseline acc fetch a st hen h0
  refine ⟨?_, ?_, ?_⟩
  · rw [hH]
    exact (syncAccountBaseline_delivered (some acc) fetch a st).1
  · intro hfe
    rw [hH, syncAccountBaseline_empty_fetch acc fetch a st hfe]
  · intro hne
    obtain ⟨e, hmem, huid, hsync⟩ :=
      syncAccountBaseline_nonempty acc fetch a st hen hne
    have hfo : findOnePair st.store.docs a e.messageId = Option.none := by
      unfold findOnePair
      rw [List.find?_eq_none]
      intro d hd
      have hna := (List.filter_eq_nil_iff.mp hempty) d hd
      simp only [decide_eq_true_eq] at hna ⊢
      exact fun hc => hna hc.1
    have hmark : (markProcessed a e.messageId e.uid st.store).docs
        = st.store.docs ++ [⟨DocId.gen st.store.nextGen, a, e.messageId,
            e.uid⟩] := by
      unfold markProcessed
      rw [hfo]
      exact putDoc_fresh _ (any_id_eq_false_of_genBounded hwf)
    have hstore : (handleNewEmail true (some acc) fetch a st).store
        = markProcessed a e.messageId e.uid st.store := by
      rw [hH, hsync]
    refine ⟨e, hmem, huid, ?_, ?_⟩
    · rw [hstore, hmark, List.filter_append, hempty, List.nil_append]
      simp
    · rw [hstore]
      unfold getHighestUid
      rw [hmark, List.filter_append, hempty, List.nil_append]
      have hfilter : List.filter (fun d => decide (d.accountId = a))
          [(⟨DocId.gen st.store.nextGen, a, e.messageId, e.uid⟩ :
            ProcessedDoc)]
          = [⟨DocId.gen st.store.nextGen, a, e.messageId, e.uid⟩] := by
        simp
      rw [hfilter]
      show 0 < max e.uid 0
      exact lt_of_lt_of_le (hpos e hmem) (le_max_left _ _)

/-- C3: for an enabled account with a positive watermark, the first
new-mail event of the process lifetime performs a baseline resync (no
delivery, account added to the session-initialized set, the current
highest-UID message marked processed); once initialized, a further event
fetches since the watermark and delivers every claimed email. -/
theorem session_restart_then_deliver (acc : MailAccount)
    (fetch : Nat → List EmailMessage) (st : IngestState) (a : String)
    (hen : acc.enabled = true)
    (hpos : 0 < getHighestUid a st.store) :
    (a ∉ st.sessionInitializedAccounts →
      (handleNewEmail true (some acc) fetch a st).delivered = st.delivered ∧
      a ∈ (handleNewEmail true (some acc) fetch a
        st).sessionInitializedAccounts ∧
      (fetch 0 ≠ [] →
        ∃ e, e ∈ fetch 0 ∧ e.uid = maxUid (fetch 0) ∧
          isProcessed a e.messageId
            (handleNewEmail true (some acc) fetch a st).store = true)) ∧
    (a ∈ st.sessionInitializedAccounts →
      (∀ e ∈ fetch (getHighestUid a st.store),
          getDoc st.store.docs (DocId.det a e.messageId) = Option.none) →
      ((fetch (getHighestUid a st.store)).map
        (fun e => e.messageId)).Nodup →
      (handleNewEmail true (some acc) fetch a st).delivered
        = st.delivered ++ (fetch (getHighestUid a st.store)).map
            (fun e => (a, e.messageId))) := by
  have h0 : getHighestUid a st.store ≠ 0 := Nat.pos_iff_ne_zero.mp hpos
  constructor
  · intro hni
    have hH := handleNewEmail_restart acc fetch a st hen h0 hni
    refine ⟨?_, ?_, ?_⟩
    · rw [hH]
      exact (syncAccountBaseline_delivered (some acc) fetch a _).1
    · rw [hH, (syncAccountBaseline_delivered (some acc) fetch a _).2]
      exact List.mem_insert_self a _
    · intro hne
      obtain ⟨e, hmem, huid, hsync⟩ :=
        syncAccountBaseline_nonempty acc fetch a
          { st with sessionInitializedAccounts :=
              st.sessionInitializedAccounts.insert a } hen hne
      refine ⟨e, hmem, huid, ?_⟩
      rw [hH, hsync]
      exact isProcessed_markProcessed_self a e.messageId e.uid st.store
  · intro hmem hall hnodup
    have hH := handleNewEmail_deliver acc fetch a st hen h0 hmem
    rw [hH]
    show st.delivered ++
        (processEmails a (fetch (getHighestUid a st.store))
          st.store).2.map (fun e => (a, e.messageId))
      = st.delivered ++ (fetch (getHighestUid a st.store)).map
          (fun e => (a, e.messageId))
    rw [processEmails_all_new a _ st.store hall hnodup]

theorem try_claim_at_most_once_witness :
    trueCountFrom ProcStore.empty
      [ProcOp.tryMark "a" "m" 1, ProcOp.tryMark "a" "m" 2] "a" "m" ≤ 1 :=
  (try_claim_at_most_once_and_delivery_after_claim ProcStore.empty
    [ProcOp.tryMark "a" "m" 1, ProcOp.tryMark "a" "m" 2] "a" "m" true
    Option.none (fun _ => []) ⟨ProcStore.empty, [], []⟩).1

theorem baseline_sync_witness :
    (handleNewEmail true
        (some ⟨"a1", "u@x", Option.none, Option.none, Option.none, true⟩)
        (fun _ => [⟨"m10", 10⟩, ⟨"m12", 12⟩]) "a1"
        ⟨ProcStore.empty, [], []⟩).delivered = [] ∧
    0 < getHighestUid "a1"
        (handleNewEmail true
          (some ⟨"a1", "u@x", Option.none, Option.none, Option.none, true⟩)
          (fun _ => [⟨"m10", 10⟩, ⟨"m12", 12⟩]) "a1"
          ⟨ProcStore.empty, [], []⟩).store := by
  have h := baseline_sync_no_delivery
    ⟨"a1", "u@x", Option.none, Option.none, Option.none, true⟩
    (fun _ => [⟨"m10", 10⟩, ⟨"m12", 12⟩]) ⟨ProcStore.empty, [], []⟩ "a1"
    rfl genBounded_empty rfl (by decide)
  refine ⟨h.1, ?_⟩
  obtain ⟨e, _, _, _, hp⟩ := h.2.2 (by decide)
  exact hp

theorem session_restart_witness :
    (handleNewEmail true
        (some ⟨"a1", "u@x", Option.none, Option.none, Option.none, true⟩)
        (fun _ => [⟨"m13", 13⟩]) "a1"
        ⟨⟨[⟨DocId.gen 0, "a1", "m1", 12⟩], 1⟩, ["a1"], []⟩).delivered
      = [("a1", "m13")] := by
  have h := (session_restart_then_deliver
    ⟨"a1", "u@x", Option.none, Option.none, Option.none, true⟩
    (fun _ => [⟨"m13", 13⟩])
    ⟨⟨[⟨DocId.gen 0, "a1", "m1", 12⟩], 1⟩, ["a1"], []⟩ "a1"
    rfl (by decide)).2 (by decide) (by decide) (by decide)
  exact h

/-! ### OAuth2 token refresh (`oauth/device-code`, `oauth/gmail`,
`credentials.ts`) -/

/-- Parsed JSON body of a successful token-endpoint response;
`refresh_token` is `Option.none` when the field is absent. -/
structure TokenJson where
  access_token : String
  refresh_token : Option String
  expires_in : Int
  token_type : String
deriving DecidableEq, Repr

/-- `TokenResponse` from `types.ts`. -/
structure TokenResponse where
  accessToken : String
  refreshToken : String
  expiresIn : Int
  tokenType : String
deriving DecidableEq, Repr

/-- JavaScript `x || d` on an optional string: `undefined` and the empty
string are falsy. -/
def jsOrString (x : Option String) (d : String) : String :=
  match x with
  | Option.none => d
  | some s => if s = "" then d else s

/-- `refreshAccessToken`: builds the `TokenResponse` from the server's
parsed body, reusing the incoming refresh token when
`data.refresh_token` is falsy (the HTTP transport and the `response.ok`
failure path are outside the model — the argument is the parsed body of a
successful response). -/
def refreshAccessToken (data : TokenJson) (refreshToken : String) :
    TokenResponse :=
  { accessToken := data.access_token,
    refreshToken := jsOrString data.refresh_token refreshToken,
    expiresIn := data.expires_in,
    tokenType := data.token_type }

/-- `MailCredentials` from `types.ts`; the `expiresAt` ISO timestamp is
modelled as milliseconds since the epoch. -/
inductive MailCredentials where
  | password (username password : String)
  | oauth2 (accessToken refreshToken : String) (expiresAt : Int)
deriving DecidableEq, Repr

/-- `isGmailTokenExpired` (callers never pass `bufferMinutes`, so the
default 5 is fixed); `now` is `Date.now()`. -/
def isGmailTokenExpired (expiresAt : Int) (now : Int) : Bool :=
  now ≥ expiresAt - 5 * 60 * 1000

/-- `GmailProvider.needsRefresh`. -/
def needsRefresh (credentials : MailCredentials) (now : Int) : Bool :=
  match credentials with
  | .password _ _ => false
  | .oauth2 _ _ expiresAt => isGmailTokenExpired expiresAt now

/-- `GmailProvider.refreshCredentials` with the OAuth config present;
`data` is the token endpoint's response body. -/
def refreshCredentials (credentials : MailCredentials) (data : TokenJson)
    (now : Int) : Except String MailCredentials :=
  match credentials with
  | .password _ _ => .error "Cannot refresh non-OAuth2 credentials"
  | .oauth2 _ refreshToken _ =>
      .ok (.oauth2 (refreshAccessToken data refreshToken).accessToken
        (refreshAccessToken data refreshToken).refreshToken
        (now + (refreshAccessToken data refreshToken).expiresIn * 1000))

/-- The credential write `AccountsRepository.upsert` performs for the
input `ensureFreshCredentials` passes (name/email/tokens of an existing
account, no password field): JavaScript truthiness picks the credential
shape, and nothing is written when `accessToken` is falsy. -/
def upsertVault (vault : Option MailCredentials) (email : String)
    (accessToken refreshToken : String) (expiresAt : Int) :
    Option MailCredentials :=
  if accessToken = "" then vault
  else if refreshToken = "" then some (.password email "")
  else some (.oauth2 accessToken refreshToken expiresAt)

/-- `ensureFreshCredentials` (`credentials.ts`) specialised to a provider
exposing both `needsRefresh` and `refreshCredentials` (Gmail/Outlook).
Returns the fresh credentials together with the vault content after the
call. -/
def ensureFreshCredentials (credentials : MailCredentials) (email : String)
    (vault : Option MailCredentials) (data : TokenJson) (now : Int) :
    Except String (MailCredentials × Option MailCredentials) :=
  if needsRefresh credentials now = false then .ok (credentials, vault)
  else
    match refreshCredentials credentials data now with
    | .error e => .error e
    | .ok newCredentials =>
        match newCredentials with
        | .oauth2 tok rt exp =>
            .ok (newCredentials, upsertVault vault email tok rt exp)
        | .password _ _ => .ok (newCredentials, vault)

/-! ### IMAP connector retry policy (`imap/client.ts`) -/

/-- The fields of a thrown value that `isTransientError` and
`formatImapError` read; `isErrorInstance` models `instanceof Error`
(`message` then also stands for `String(error)`). -/
structure JsError where
  message : String
  code : Option String
  responseText : Option String
  serverResponseCode : Option String
  authenticationFailed : Bool
  isErrorInstance : Bool
deriving DecidableEq, Repr

/-- `p` begins the character list (the inner step of JS
`String.prototype.includes`). -/
def charsBegin : List Char → List Char → Bool
  | [], _ => true
  | _ :: _, [] => false
  | p :: ps, c :: cs => p == c && charsBegin ps cs

/-- `p` occurs contiguously in the character list. -/
def containsSeq (p : List Char) : List Char → Bool
  | [] => p.isEmpty
  | c :: cs => charsBegin p (c :: cs) || containsSeq p cs

/-- JS `s.includes(p)`. -/
def strIncludes (s p : String) : Bool :=
  containsSeq p.toList s.toList

/-- The `transientPatterns` list of `isTransientError`. -/
def transientPatterns : List String :=
  ["etimedout", "econnreset", "econnrefused", "enotfound", "enetunreach",
   "ehostunreach", "timeout", "socket hang up", "connection reset",
   "network", "temporary"]

/-- `toLowerCase()`, written character-wise (the same map over the
characters that `String.toLower` performs, in a form the kernel
evaluates). -/
def lowerStr (s : String) : String :=
  String.mk (s.data.map Char.toLower)

/-- `isTransientError`: a non-`Error` value is never transient; otherwise
some pattern occurs in the lowercased message or code. -/
def isTransientError (e : JsError) : Bool :=
  if e.isErrorInstance = false then false
  else
    transientPatterns.any (fun p =>
      strIncludes (lowerStr e.message) p ||
      strIncludes ((e.code.map lowerStr).getD "") p)

/-- JS truthiness of an optional string. -/
def jsTruthy (x : Option String) : Bool :=
  match x with
  | Option.none => false
  | some s => s ≠ ""

/-- `formatImapError`. -/
def formatImapError (e : JsError) : String :=
  if e.isErrorInstance = false then e.message
  else
    if ((if e.authenticationFailed then ["Authentication failed"] else [])
        ++ (if jsTruthy e.responseText = true ∧
              e.responseText ≠ some "Command failed"
            then [e.responseText.getD ""]
            else if jsTruthy e.serverResponseCode = true
                 then [e.serverResponseCode.getD ""] else [])
        ++ (match e.code with
            | some c =>
                if c ≠ "" ∧ e.serverResponseCode ≠ some c
                then ["(" ++ c ++ ")"] else []
            | Option.none => [])).length > 0
    then String.intercalate ": "
      ((if e.authenticationFailed then ["Authentication failed"] else [])
        ++ (if jsTruthy e.responseText = true ∧
              e.responseText ≠ some "Command failed"
            then [e.responseText.getD ""]
            else if jsTruthy e.serverResponseCode = true
                 then [e.serverResponseCode.getD ""] else [])
        ++ (match e.code with
            | some c =>
                if c ≠ "" ∧ e.serverResponseCode ≠ some c
                then ["(" ++ c ++ ")"] else []
            | Option.none => []))
    else e.message

/-- `MAX_RETRY_ATTEMPTS`. -/
def MAX_RETRY_ATTEMPTS : Nat := 3

/-- `calculateBackoffDelay`: `jitter` is the sampled `Math.random() * 1000`
value (so below 1000). -/
def calculateBackoffDelay (attempt : Nat) (jitter : Nat) : Nat :=
  min (1000 * 2 ^ attempt + jitter) 30000

/-- The retry loop of `ImapClient.withRetry`; `op attempt` is the outcome
of the wrapped operation on that attempt (the `disconnect` cleanup has no
effect on the modelled state), `jit` samples the jitter, `fuel` counts the
remaining loop iterations.  Returns the final outcome and the list of
backoff delays slept.  The fuel-exhausted arm mirrors the unreachable
trailing `throw` of the source. -/
def withRetryGo {α : Type} (op : Nat → Except JsError α) (jit : Nat → Nat) :
    Nat → Nat → List Nat → Except String α × List Nat
  | 0, _, ds => (.error "unreachable", ds)
  | fuel + 1, attempt, ds =>
      match op attempt with
      | .ok v => (.ok v, ds)
      | .error e =>
          if isTransientError e = true ∧ attempt < MAX_RETRY_ATTEMPTS - 1 then
            withRetryGo op jit fuel (attempt + 1)
              (ds ++ [calculateBackoffDelay attempt (jit attempt)])
          else
            (.error (formatImapError e), ds)

/-- `ImapClient.withRetry`. -/
def withRetry {α : Type} (op : Nat → Except JsError α) (jit : Nat → Nat) :
    Except String α × List Nat :=
  withRetryGo op jit MAX_RETRY_ATTEMPTS 0 []

/-! ### `ImapClient.fetchNewEmails` -/

/-- UID SEARCH criteria: `{uid: `(sinceUid+1):*`}` or `{all: true}`. -/
inductive SearchCriteria where
  | uidRange (lo : Nat)
  | all
deriving DecidableEq, Repr

/-- The criteria selection of `fetchNewEmails`. -/
def searchCriteria (sinceUid : Nat) : SearchCriteria :=
  if sinceUid > 0 then .uidRange (sinceUid + 1) else .all

/-- The fields of a fetched IMAP message that `fetchNewEmails` reads to
build or skip an email (`envelope.from/to/cc/subject/date` only populate
fields of the result not used by any claim). -/
structure RawMessage where
  uid : Nat
  source : Option String
  envMessageId : Option String
deriving DecidableEq, Repr

/-- Result of the external `parseEmail`. -/
structure ParsedBody where
  body : String
  snippet : String
deriving DecidableEq, Repr

/-- JS `xs.slice(-n)` (for `n = 0`, `slice(-0)` is the whole array). -/
def jsSliceLast {α : Type} (xs : List α) (n : Nat) : List α :=
  if n = 0 then xs else xs.drop (xs.length - n)

/-- The `for await (const message of …)` body of `fetchNewEmails`: skip a
message without source or whose parse throws, keep the rest in order;
`parse` returns `Option.none` where `parseEmail` throws. -/
def fetchLoop (parse : String → Option ParsedBody) (accountId : String) :
    List RawMessage → List EmailMessage
  | [] => []
  | m :: rest =>
      match m.source with
      | Option.none => fetchLoop parse accountId rest
      | some src =>
          match parse src with
          | Option.none => fetchLoop parse accountId rest
          | some _ =>
              ⟨jsOrString m.envMessageId ("uid-" ++ toString m.uid), m.uid⟩
                :: fetchLoop parse accountId rest

/-- `ImapClient.fetchNewEmails` (inside `withRetry`, connected): `server`
is the SEARCH response (`Option.none` when imapflow returns a non-array),
`fetchMsgs` the UID FETCH response for the requested uid set. -/
def fetchNewEmails (server : SearchCriteria → Option (List Nat))
    (fetchMsgs : List Nat → List RawMessage)
    (parse : String → Option ParsedBody) (accountId : String)
    (sinceUid limit : Nat) : List EmailMessage :=
  match server (searchCriteria sinceUid) with
  | Option.none => []
  | some uidsResult =>
      if jsSliceLast uidsResult limit = [] then []
      else fetchLoop parse accountId (fetchMsgs (jsSliceLast uidsResult limit))

/-! ### `GenericImapProvider.getImapConfig` -/

/-- imapflow auth parameters. -/
inductive ImapAuth where
  | passAuth (user pass : String)
  | oauthAuth (user accessToken : String)
deriving DecidableEq, Repr

/-- `ImapConfig` from `types.ts` (the optional `tls` override is not set
by any provider modelled here). -/
structure ImapConfig where
  host : String
  port : Int
  secure : Bool
  auth : ImapAuth
deriving DecidableEq, Repr

/-- JavaScript `x || d` on an optional number: `undefined`/`null` and `0`
are falsy. -/
def jsOrInt (x : Option Int) (d : Int) : Int :=
  match x with
  | Option.none => d
  | some v => if v = 0 then d else v

/-- `GenericImapProvider.getImapConfig`. -/
def getImapConfig (account : MailAccount)
    (credentials : MailCredentials) : Except String ImapConfig :=
  match credentials with
  | .oauth2 _ _ _ => .error "Generic IMAP requires password authentication"
  | .password username password =>
      match account.imapHost with
      | Option.none => .error "IMAP host is required for generic IMAP provider"
      | some h =>
          if h = "" then
            .error "IMAP host is required for generic IMAP provider"
          else
            .ok { host := h,
                  port := jsOrInt account.imapPort 993,
                  secure := jsOrInt account.imapPort 993 = 993,
                  auth := .passAuth
                    (if username = "" then account.email else username)
                    password }

/-! ### Theorems for the OAuth claims -/

/-- C6 counterexample: with an already-expired token (`expires_at = now`)
and a server grant of `expires_in = 60` s the refreshed credentials carry
`expires_at = now + 60 s`, below the `now + 10 min` bound the claim
asserts — the code takes the bound from the server, it does not enforce
10 minutes. -/
theorem ensureFresh_ten_minute_counterexample :
    needsRefresh (.oauth2 "a" "r" 0) 0 = true ∧
    ensureFreshCredentials (.oauth2 "a" "r" 0) "u@x" Option.none
        ⟨"a2", some "r2", 60, "Bearer"⟩ 0
      = .ok (.oauth2 "a2" "r2" 60000, some (.oauth2 "a2" "r2" 60000)) ∧
    ¬ ((0 : Int) + 10 * 60 * 1000 ≤ 60000) := by
  refine ⟨rfl, rfl, by decide⟩

/-- C6 (amended): when `expires_at` is more than the 5-minute buffer in
the future, `ensureFreshCredentials` returns the credentials unchanged
and performs no credential write; when it is within the buffer or past,
the returned credentials carry `expires_at = now + expires_in · 1000` and
are persisted (so the original 10-minute bound holds exactly when the
server grants `expires_in ≥ 600` s), with non-empty tokens stored as
OAuth2 credentials. -/
theorem ensureFresh_spec (tok rt email : String) (exp now : Int)
    (vault : Option MailCredentials) (data : TokenJson) :
    (now < exp - 5 * 60 * 1000 →
      ensureFreshCredentials (.oauth2 tok rt exp) email vault data now
        = .ok (.oauth2 tok rt exp, vault)) ∧
    (exp - 5 * 60 * 1000 ≤ now →
      ensureFreshCredentials (.oauth2 tok rt exp) email vault data now
        = .ok (.oauth2 data.access_token (jsOrString data.refresh_token rt)
                (now + data.expires_in * 1000),
               upsertVault vault email data.access_token
                 (jsOrString data.refresh_token rt)
                 (now + data.expires_in * 1000)) ∧
      (data.access_token ≠ "" → jsOrString data.refresh_token rt ≠ "" →
        upsertVault vault email data.access_token
            (jsOrString data.refresh_token rt)
            (now + data.expires_in * 1000)
          = some (.oauth2 data.access_token
              (jsOrString data.refresh_token rt)
              (now + data.expires_in * 1000))) ∧
      ((600 : Int) ≤ data.expires_in →
        now + 10 * 60 * 1000 ≤ now + data.expires_in * 1000)) := by
  constructor
  · intro h
    have hnr : needsRefresh (.oauth2 tok rt exp) now = false := by
      unfold needsRefresh isGmailTokenExpired
      exact decide_eq_false (not_le.mpr h)
    unfold ensureFreshCredentials
    rw [hnr, if_pos rfl]
  · intro h
    have hnr : needsRefresh (.oauth2 tok rt exp) now = true := by
      unfold needsRefresh isGmailTokenExpired
      exact decide_eq_true h
    refine ⟨?_, ?_, ?_⟩
    · unfold ensureFreshCredentials
      rw [hnr, if_neg (by simp)]
      rfl
    · intro h1 h2
      unfold upsertVault
      rw [if_neg h1, if_neg h2]
    · intro h6
      linarith

theorem ensureFresh_spec_witness :
    ensureFreshCredentials (.oauth2 "t" "r" 1000000000) "u@x" Option.none
        ⟨"a2", some "r2", 3600, "Bearer"⟩ 0
      = .ok (.oauth2 "t" "r" 1000000000, Option.none) :=
  (ensureFresh_spec "t" "r" "u@x" 1000000000 0 Option.none
    ⟨"a2", some "r2", 3600, "Bearer"⟩).1 (by decide)

/-- C7 counterexample: a token response that carries `refresh_token` as
the empty string (present, not omitted) does not propagate the server's
value — JavaScript `||` treats the empty string as falsy, so the
passed-in token is kept. -/
theorem refreshAccessToken_empty_counterexample :
    (⟨"a2", some "", 3600, "Bearer"⟩ : TokenJson).refresh_token = some "" ∧
    (refreshAccessToken ⟨"a2", some "", 3600, "Bearer"⟩
      "old-rt").refreshToken = "old-rt" ∧
    ("old-rt" : String) ≠ "" := by
  refine ⟨rfl, rfl, by decide⟩

/-- C7 (amended): the returned `TokenResponse` reuses the incoming
refresh token when the server omits the field or returns it empty, and
carries the server's value when it is a non-empty string. -/
theorem refreshAccessToken_token_preserved (data : TokenJson)
    (rt : String) :
    ((data.refresh_token = Option.none ∨ data.refresh_token = some "") →
      (refreshAccessToken data rt).refreshToken = rt) ∧
    (∀ s, data.refresh_token = some s → s ≠ "" →
      (refreshAccessToken data rt).refreshToken = s) := by
  constructor
  · intro h
    rcases h with h | h <;> simp [refreshAccessToken, jsOrString, h]
  · intro s hs hne
    simp [refreshAccessToken, jsOrString, hs, hne]

theorem refreshAccessToken_token_preserved_witness :
    (refreshAccessToken ⟨"a2", Option.none, 3600, "Bearer"⟩
      "keep").refreshToken = "keep" ∧
    (refreshAccessToken ⟨"a2", some "new", 3600, "Bearer"⟩
      "keep").refreshToken = "new" :=
  ⟨(refreshAccessToken_token_preserved ⟨"a2", Option.none, 3600, "Bearer"⟩
      "keep").1 (Or.inl rfl),
   (refreshAccessToken_token_preserved ⟨"a2", some "new", 3600, "Bearer"⟩
      "keep").2 "new" rfl (by decide)⟩

/-! ### Theorems for the retry-policy claim -/

theorem withRetryGo_ok {α : Type} (op : Nat → Except JsError α)
    (jit : Nat → Nat) {fuel attempt : Nat} {ds : List Nat} {v : α}
    (h : op attempt = .ok v) :
    withRetryGo op jit (fuel + 1) attempt ds = (.ok v, ds) := by
  unfold withRetryGo; rw [h]

theorem withRetryGo_stop {α : Type} (op : Nat → Except JsError α)
    (jit : Nat → Nat) {fuel attempt : Nat} {ds : List Nat} {e : JsError}
    (h : op attempt = .error e)
    (hc : ¬ (isTransientError e = true ∧ attempt < MAX_RETRY_ATTEMPTS - 1)) :
    withRetryGo op jit (fuel + 1) attempt ds
      = (.error (formatImapError e), ds) := by
  unfold withRetryGo
  rw [h]
  show (if isTransientError e = true ∧ attempt < MAX_RETRY_ATTEMPTS - 1
        then withRetryGo op jit fuel (attempt + 1)
          (ds ++ [calculateBackoffDelay attempt (jit attempt)])
        else (.error (formatImapError e), ds)) = _
  rw [if_neg hc]

theorem withRetryGo_retry {α : Type} (op : Nat → Except JsError α)
    (jit : Nat → Nat) {fuel attempt : Nat} {ds : List Nat} {e : JsError}
    (h : op attempt = .error e) (ht : isTransientError e = true)
    (hlt : attempt < MAX_RETRY_ATTEMPTS - 1) :
    withRetryGo op jit (fuel + 1) attempt ds
      = withRetryGo op jit fuel (attempt + 1)
          (ds ++ [calculateBackoffDelay attempt (jit attempt)]) := by
  show (match op attempt with
        | Except.ok v => ((Except.ok v, ds) : Except String α × List Nat)
        | Except.error e =>
            if isTransientError e = true ∧ attempt < MAX_RETRY_ATTEMPTS - 1
            then withRetryGo op jit fuel (attempt + 1)
              (ds ++ [calculateBackoffDelay attempt (jit attempt)])
            else (Except.error (formatImapError e), ds))
      = withRetryGo op jit fuel (attempt + 1)
          (ds ++ [calculateBackoffDelay attempt (jit attempt)])
  rw [h]
  show (if isTransientError e = true ∧ attempt < MAX_RETRY_ATTEMPTS - 1
        then withRetryGo op jit fuel (attempt + 1)
          (ds ++ [calculateBackoffDelay attempt (jit attempt)])
        else (Except.error (formatImapError e), ds))
      = withRetryGo op jit fuel (attempt + 1)
          (ds ++ [calculateBackoffDelay attempt (jit attempt)])
  rw [if_pos ⟨ht, hlt⟩]

/-- Complete case analysis of one `withRetry` run. -/
theorem withRetry_eval {α : Type} (op : Nat → Except JsError α)
    (jit : Nat → Nat) :
    (∃ v, op 0 = .ok v ∧ withRetry op jit = (.ok v, [])) ∨
    (∃ e0, op 0 = .error e0 ∧ isTransientError e0 = false ∧
      withRetry op jit = (.error (formatImapError e0), [])) ∨
    (∃ e0 v, op 0 = .error e0 ∧ isTransientError e0 = true ∧
      op 1 = .ok v ∧
      withRetry op jit = (.ok v, [calculateBackoffDelay 0 (jit 0)])) ∨
    (∃ e0 e1, op 0 = .error e0 ∧ isTransientError e0 = true ∧
      op 1 = .error e1 ∧ isTransientError e1 = false ∧
      withRetry op jit
        = (.error (formatImapError e1), [calculateBackoffDelay 0 (jit 0)])) ∨
    (∃ e0 e1 v, op 0 = .error e0 ∧ isTransientError e0 = true ∧
      op 1 = .error e1 ∧ isTransientError e1 = true ∧ op 2 = .ok v ∧
      withRetry op jit = (.ok v, [calculateBackoffDelay 0 (jit 0),
        calculateBackoffDelay 1 (jit 1)])) ∨
    (∃ e0 e1 e2, op 0 = .error e0 ∧ isTransientError e0 = true ∧
      op 1 = .error e1 ∧ isTransientError e1 = true ∧
      op 2 = .error e2 ∧
      withRetry op jit
        = (.error (formatImapError e2), [calculateBackoffDelay 0 (jit 0),
            calculateBackoffDelay 1 (jit 1)])) := by
  have hstart : withRetry op jit = withRetryGo op jit 3 0 [] := rfl
  cases h0 : op 0 with
  | ok v =>
    refine Or.inl ⟨v, rfl, ?_⟩
    have s1 : withRetryGo op jit 3 0 ([] : List Nat) = (.ok v, []) :=
      withRetryGo_ok op jit h0
    rw [hstart, s1]
  | error e0 =>
    by_cases ht0 : isTransientError e0 = true
    · have s1 : withRetryGo op jit 3 0 ([] : List Nat)
          = withRetryGo op jit 2 1 [calculateBackoffDelay 0 (jit 0)] :=
        withRetryGo_retry op jit h0 ht0 (by decide)
      cases h1 : op 1 with
      | ok v =>
        refine Or.inr (Or.inr (Or.inl ⟨e0, v, rfl, ht0, rfl, ?_⟩))
        have s2 : withRetryGo op jit 2 1 [calculateBackoffDelay 0 (jit 0)]
            = (.ok v, [calculateBackoffDelay 0 (jit 0)]) :=
          withRetryGo_ok op jit h1
        rw [hstart, s1, s2]
      | error e1 =>
        by_cases ht1 : isTransientError e1 = true
        · have s2 : withRetryGo op jit 2 1 [calculateBackoffDelay 0 (jit 0)]
              = withRetryGo op jit 1 2 [calculateBackoffDelay 0 (jit 0),
                  calculateBackoffDelay 1 (jit 1)] :=
            withRetryGo_retry op jit h1 ht1 (by decide)
          cases h2 : op 2 with
          | ok v =>
            refine Or.inr (Or.inr (Or.inr (Or.inr (Or.inl
              ⟨e0, e1, v, rfl, ht0, rfl, ht1, rfl, ?_⟩))))
            have s3 : withRetryGo op jit 1 2
                [calculateBackoffDelay 0 (jit 0),
                 calculateBackoffDelay 1 (jit 1)]
                = (.ok v, [calculateBackoffDelay 0 (jit 0),
                    calculateBackoffDelay 1 (jit 1)]) :=
              withRetryGo_ok op jit h2
            rw [hstart, s1, s2, s3]
          | error e2 =>
            refine Or.inr (Or.inr (Or.inr (Or.inr (Or.inr
              ⟨e0, e1, e2, rfl, ht0, rfl, ht1, rfl, ?_⟩))))
            have s3 : withRetryGo op jit 1 2
                [calculateBackoffDelay 0 (jit 0),
                 calculateBackoffDelay 1 (jit 1)]
                = (.error (formatImapError e2),
                   [calculateBackoffDelay 0 (jit 0),
                    calculateBackoffDelay 1 (jit 1)]) :=
              withRetryGo_stop op jit h2 (fun hc => absurd hc.2 (by decide))
            rw [hstart, s1, s2, s3]
        · refine Or.inr (Or.inr (Or.inr (Or.inl
            ⟨e0, e1, rfl, ht0, rfl, Bool.eq_false_iff.mpr ht1, ?_⟩)))
          have s2 : withRetryGo op jit 2 1 [calculateBackoffDelay 0 (jit 0)]
              = (.error (formatImapError e1),
                 [calculateBackoffDelay 0 (jit 0)]) :=
            withRetryGo_stop op jit h1 (fun hc => ht1 hc.1)
          rw [hstart, s1, s2]
    · refine Or.inr (Or.inl ⟨e0, rfl, Bool.eq_false_iff.mpr ht0, ?_⟩)
      have s1 : withRetryGo op jit 3 0 ([] : List Nat)
          = (.error (formatImapError e0), []) :=
        withRetryGo_stop op jit h0 (fun hc => ht0 hc.1)
      rw [hstart, s1]

/-- The transient set exactly as the specification enumerates it
("timeouts, connection reset/refused, DNS, host unreachable, 'socket hang
up'"), rendered as message/code patterns.  This definition follows the
claim's words, not the source, and exists only to compare the two. -/
def claimTransientPatterns : List String :=
  ["timeout", "etimedout", "econnreset", "connection reset",
   "econnrefused", "enotfound", "ehostunreach", "socket hang up"]

/-- Transience as claimed: some claimed pattern occurs in the lowercased
message or code.  Follows the claim's words, for comparison with
`isTransientError`. -/
def claimTransient (e : JsError) : Bool :=
  if e.isErrorInstance = false then false
  else
    claimTransientPatterns.any (fun p =>
      strIncludes (lowerStr e.message) p ||
      strIncludes ((e.code.map lowerStr).getD "") p)

/-- C8 counterexample: an error reading "temporary failure" matches none
of the claim's transient categories, yet `isTransientError` accepts it
(via the `"temporary"` pattern) and `withRetry` sleeps a backoff and
retries instead of throwing on the first attempt. -/
theorem retry_beyond_claimed_transient_set :
    claimTransient ⟨"temporary failure", Option.none, Option.none,
      Option.none, false, true⟩ = false ∧
    isTransientError ⟨"temporary failure", Option.none, Option.none,
      Option.none, false, true⟩ = true ∧
    (withRetry (fun n => if n = 0
        then .error ⟨"temporary failure", Option.none, Option.none,
          Option.none, false, true⟩
        else .ok 0) (fun _ => 0)).2 = [1000] := by
  refine ⟨by decide, by decide, by decide⟩

/-- C8 (amended): `withRetry` throws every non-transient first-attempt
error immediately with no backoff, sleeps at most two backoffs (hence at
most `MAX_RETRY_ATTEMPTS = 3` attempts), backs off only after a transient
first error, and on two transient errors sleeps exactly
`min(1000·2^attempt + jitter, 30000)` per attempt before the third
attempt decides the outcome — where the transient set is the source's
(the claim's enumerated set extended by network-unreachable and the
generic "network"/"temporary" substrings). -/
theorem withRetry_retry_policy {α : Type} (op : Nat → Except JsError α)
    (jit : Nat → Nat) (e : JsError) :
    (op 0 = .error e → isTransientError e = false →
      withRetry op jit = (.error (formatImapError e), [])) ∧
    (withRetry op jit).2.length ≤ MAX_RETRY_ATTEMPTS - 1 ∧
    ((withRetry op jit).2 ≠ [] →
      ∃ e0, op 0 = .error e0 ∧ isTransientError e0 = true) ∧
    (∀ e0 e1, op 0 = .error e0 → isTransientError e0 = true →
      op 1 = .error e1 → isTransientError e1 = true →
      (withRetry op jit).2
        = [min (1000 * 2 ^ 0 + jit 0) 30000,
           min (1000 * 2 ^ 1 + jit 1) 30000] ∧
      (∀ v, op 2 = .ok v → (withRetry op jit).1 = .ok v) ∧
      (∀ e2, op 2 = .error e2 →
        (withRetry op jit).1 = .error (formatImapError e2))) := by
  rcases withRetry_eval op jit with
    ⟨v, h0, hw⟩ | ⟨e0, h0, ht0, hw⟩ | ⟨e0, v, h0, ht0, h1, hw⟩ |
    ⟨e0, e1, h0, ht0, h1, ht1, hw⟩ | ⟨e0, e1, v, h0, ht0, h1, ht1, h2, hw⟩ |
    ⟨e0, e1, e2, h0, ht0, h1, ht1, h2, hw⟩
  · refine ⟨?_, ?_, ?_, ?_⟩
    · intro hx _; rw [hx] at h0; cases h0
    · rw [hw]; simp [MAX_RETRY_ATTEMPTS]
    · rw [hw]; intro hne; exact absurd rfl hne
    · intro f0 f1 hx0 _ _ _; rw [hx0] at h0; cases h0
  · refine ⟨?_, ?_, ?_, ?_⟩
    · intro hx hnt
      rw [hx] at h0
      injection h0 with h0e
      rw [hw, h0e]
    · rw [hw]; simp [MAX_RETRY_ATTEMPTS]
    · rw [hw]; intro hne; exact absurd rfl hne
    · intro f0 f1 hx0 hxt0 _ _
      rw [hx0] at h0
      injection h0 with h0e
      rw [h0e] at hxt0
      rw [hxt0] at ht0
      cases ht0
  · refine ⟨?_, ?_, ?_, ?_⟩
    · intro hx hnt
      rw [hx] at h0
      injection h0 with h0e
      rw [h0e] at hnt
      rw [hnt] at ht0
      cases ht0
    · rw [hw]; simp [MAX_RETRY_ATTEMPTS]
    · intro _; exact ⟨e0, h0, ht0⟩
    · intro f0 f1 hx0 hxt0 hx1 hxt1
      rw [hx1] at h1; cases h1
  · refine ⟨?_, ?_, ?_, ?_⟩
    · intro hx hnt
      rw [hx] at h0
      injection h0 with h0e
      rw [h0e] at hnt
      rw [hnt] at ht0
      cases ht0
    · rw [hw]; simp [MAX_RETRY_ATTEMPTS]
    · intro _; exact ⟨e0, h0, ht0⟩
    · intro f0 f1 hx0 hxt0 hx1 hxt1
      rw [hx1] at h1
      injection h1 with h1e
      rw [h1e] at hxt1
      rw [hxt1] at ht1
      cases ht1
  · refine ⟨?_, ?_, ?_, ?_⟩
    · intro hx hnt
      rw [hx] at h0
      injection h0 with h0e
      rw [h0e] at hnt
      rw [hnt] at ht0
      cases ht0
    · rw [hw]; simp [MAX_RETRY_ATTEMPTS]
    · intro _; exact ⟨e0, h0, ht0⟩
    · intro f0 f1 hx0 hxt0 hx1 hxt1
      refine ⟨by rw [hw]; rfl, ?_, ?_⟩
      · intro v2 hx2
        rw [hx2] at h2
        injection h2 with h2e
        rw [hw, h2e]
      · intro e2 hx2
        rw [hx2] at h2; cases h2
  · refine ⟨?_, ?_, ?_, ?_⟩
    · intro hx hnt
      rw [hx] at h0
      injection h0 with h0e
      rw [h0e] at hnt
      rw [hnt] at ht0
      cases ht0
    · rw [hw]; simp [MAX_RETRY_ATTEMPTS]
    · intro _; exact ⟨e0, h0, ht0⟩
    · intro f0 f1 hx0 hxt0 hx1 hxt1
      refine ⟨by rw [hw]; rfl, ?_, ?_⟩
      · intro v2 hx2
        rw [hx2] at h2; cases h2
      · intro e2x hx2
        rw [hx2] at h2
        injection h2 with h2e
        rw [hw, h2e]

theorem withRetry_retry_policy_witness :
    withRetry (fun _ => (.error ⟨"Invalid credentials", Option.none,
        Option.none, Option.none, true, true⟩ : Except JsError Nat))
      (fun _ => 0)
      = (.error "Authentication failed", []) :=
  (withRetry_retry_policy (fun _ => (.error ⟨"Invalid credentials",
      Option.none, Option.none, Option.none, true, true⟩ :
        Except JsError Nat)) (fun _ => 0)
    ⟨"Invalid credentials", Option.none, Option.none, Option.none,
      true, true⟩).1 rfl (by decide)

/-! ### Theorems for the fetch claim -/

/-- The outcome of the loop body for one fetched message: skipped
(`Option.none`) or kept as the built email. -/
def rawToEmail (parse : String → Option ParsedBody) (m : RawMessage) :
    Option EmailMessage :=
  match m.source with
  | Option.none => Option.none
  | some src =>
      match parse src with
      | Option.none => Option.none
      | some _ =>
          some ⟨jsOrString m.envMessageId ("uid-" ++ toString m.uid), m.uid⟩

theorem fetchLoop_eq_filterMap (parse : String → Option ParsedBody)
    (accountId : String) (msgs : List RawMessage) :
    fetchLoop parse accountId msgs = msgs.filterMap (rawToEmail parse) := by
  induction msgs with
  | nil => rfl
  | cons m rest ih =>
    cases hs : m.source with
    | none =>
      simp only [fetchLoop, List.filterMap_cons, rawToEmail, hs]
      exact ih
    | some src =>
      cases hp : parse src with
      | none =>
        simp only [fetchLoop, List.filterMap_cons, rawToEmail, hs, hp]
        exact ih
      | some p =>
        simp only [fetchLoop, List.filterMap_cons, rawToEmail, hs, hp]
        rw [ih]

theorem rawToEmail_eq_some_iff (parse : String → Option ParsedBody)
    (m : RawMessage) (e : EmailMessage) :
    rawToEmail parse m = some e ↔
    (∃ src p, m.source = some src ∧ parse src = some p) ∧
      e = ⟨jsOrString m.envMessageId ("uid-" ++ toString m.uid), m.uid⟩ := by
  cases hs : m.source with
  | none =>
    have hr : rawToEmail parse m = Option.none := by
      unfold rawToEmail; rw [hs]
    rw [hr]
    constructor
    · intro h; cases h
    · rintro ⟨⟨src, p, hsrc, _⟩, _⟩
      cases hsrc
  | some src =>
    have hr : rawToEmail parse m
        = (match parse src with
           | Option.none => Option.none
           | some _ => some (⟨jsOrString m.envMessageId
               ("uid-" ++ toString m.uid), m.uid⟩ : EmailMessage)) := by
      unfold rawToEmail; rw [hs]
    cases hp : parse src with
    | none =>
      rw [hp] at hr
      have hr2 : rawToEmail parse m = Option.none := hr
      rw [hr2]
      constructor
      · intro h; cases h
      · rintro ⟨⟨src', p', hsrc, hp'⟩, _⟩
        injection hsrc with hsrc'
        rw [← hsrc'] at hp'
        rw [hp'] at hp
        cases hp
    | some p =>
      rw [hp] at hr
      have hr2 : rawToEmail parse m
          = some (⟨jsOrString m.envMessageId ("uid-" ++ toString m.uid),
              m.uid⟩ : EmailMessage) := hr
      rw [hr2]
      constructor
      · intro h
        injection h with he
        exact ⟨⟨src, p, rfl, hp⟩, he.symm⟩
      · rintro ⟨_, he⟩
        rw [he]

/-- C9: `fetchNewEmails` searches `UID (sinceUid+1):*` for a positive
`sinceUid` and `ALL` for zero, keeps only the last `limit` UIDs of the
search result (a suffix, of length `min limit |uids|`), and the returned
list contains exactly the fetched messages that carry a source and parse
successfully — a single bad message is skipped without failing the
fetch. -/
theorem fetchNewEmails_spec (server : SearchCriteria → Option (List Nat))
    (fetchMsgs : List Nat → List RawMessage)
    (parse : String → Option ParsedBody) (accountId : String)
    (sinceUid limit : Nat) (uids : List Nat)
    (hs : server (searchCriteria sinceUid) = some uids) (hl : 0 < limit) :
    searchCriteria 0 = SearchCriteria.all ∧
    (0 < sinceUid →
      searchCriteria sinceUid = SearchCriteria.uidRange (sinceUid + 1)) ∧
    (∃ t, t ++ jsSliceLast uids limit = uids) ∧
    (jsSliceLast uids limit).length = min limit uids.length ∧
    (jsSliceLast uids limit ≠ [] →
      ∀ e, e ∈ fetchNewEmails server fetchMsgs parse accountId sinceUid limit
        ↔ ∃ m ∈ fetchMsgs (jsSliceLast uids limit),
            (∃ src p, m.source = some src ∧ parse src = some p) ∧
            e = ⟨jsOrString m.envMessageId ("uid-" ++ toString m.uid),
                  m.uid⟩) := by
  have hslice : jsSliceLast uids limit
      = uids.drop (uids.length - limit) := by
    unfold jsSliceLast
    rw [if_neg (Nat.pos_iff_ne_zero.mp hl)]
  refine ⟨rfl, ?_, ?_, ?_, ?_⟩
  · intro h
    unfold searchCriteria
    rw [if_pos h]
  · refine ⟨uids.take (uids.length - limit), ?_⟩
    rw [hslice]
    exact List.take_append_drop _ uids
  · rw [hslice, List.length_drop]
    omega
  · intro hne e
    have hfetch : fetchNewEmails server fetchMsgs parse accountId sinceUid
        limit = fetchLoop parse accountId (fetchMsgs (jsSliceLast uids limit)) := by
      simp only [fetchNewEmails, hs]
      rw [if_neg hne]
    rw [hfetch, fetchLoop_eq_filterMap, List.mem_filterMap]
    constructor
    · rintro ⟨m, hm, hsome⟩
      obtain ⟨hgood, he⟩ := (rawToEmail_eq_some_iff parse m e).mp hsome
      exact ⟨m, hm, hgood, he⟩
    · rintro ⟨m, hm, hgood, he⟩
      exact ⟨m, hm, (rawToEmail_eq_some_iff parse m e).mpr ⟨hgood, he⟩⟩

theorem fetchNewEmails_spec_witness :
    (fun _ : SearchCriteria => some [10, 11, 12]) (searchCriteria 7)
      = some [10, 11, 12] ∧
    (0 : Nat) < 50 ∧
    ∀ e, e ∈ fetchNewEmails (fun _ => some [10, 11, 12])
        (fun us => us.map (fun u => ⟨u,
          (if u = 11 then Option.none else some "raw"), some "<m@x>"⟩))
        (fun _ => some ⟨"body", "snip"⟩) "a1" 7 50
      ↔ ∃ m ∈ ([10, 11, 12].map (fun u => (⟨u,
          (if u = 11 then Option.none else some "raw"), some "<m@x>"⟩ :
            RawMessage))),
          (∃ src p, m.source = some src ∧
            (fun _ : String => some (⟨"body", "snip"⟩ : ParsedBody)) src
              = some p) ∧
          e = ⟨jsOrString m.envMessageId ("uid-" ++ toString m.uid),
                m.uid⟩ := by
  refine ⟨rfl, by decide, ?_⟩
  have h := (fetchNewEmails_spec (fun _ => some [10, 11, 12])
    (fun us => us.map (fun u => ⟨u,
      (if u = 11 then Option.none else some "raw"), some "<m@x>"⟩))
    (fun _ => some ⟨"body", "snip"⟩) "a1" 7 50 [10, 11, 12] rfl
    (by decide)).2.2.2.2 (by decide)
  intro e
  exact h e

/-! ### Theorem for the generic-IMAP configuration claim -/

/-- C10: whenever `GenericImapProvider.getImapConfig` succeeds, the
produced port is `account.imapPort` with falsy values defaulted to 993,
the `secure` flag is set exactly when that effective port is 993, and the
account's `imapSecurity` setting has no effect on the produced
configuration. -/
theorem getImapConfig_secure_iff_port (account : MailAccount)
    (credentials : MailCredentials) (cfg : ImapConfig)
    (h : getImapConfig account credentials = .ok cfg) :
    cfg.port = jsOrInt account.imapPort 993 ∧
    (cfg.secure = true ↔ cfg.port = 993) ∧
    (∀ sec : Option ImapSecurity,
      getImapConfig { account with imapSecurity := sec } credentials
        = getImapConfig account credentials) := by
  refine ⟨?_, ?_, fun sec => rfl⟩ <;>
  · cases credentials with
    | oauth2 tok rt exp => cases h
    | password username password =>
      cases hh : account.imapHost with
      | none => simp only [getImapConfig, hh] at h; cases h
      | some hst =>
        simp only [getImapConfig, hh] at h
        by_cases hhe : hst = ""
        · rw [if_pos hhe] at h; cases h
        · rw [if_neg hhe] at h
          injection h with hcfg
          rw [← hcfg]
          try simp

theorem getImapConfig_witness :
    ((⟨"mail.example.com", 143, false, ImapAuth.passAuth "user" "pw"⟩ :
        ImapConfig).secure = true
      ↔ (⟨"mail.example.com", 143, false, ImapAuth.passAuth "user" "pw"⟩ :
        ImapConfig).port = 993) :=
  (getImapConfig_secure_iff_port
    ⟨"a1", "u@x", some "mail.example.com", some 143,
      some ImapSecurity.starttls, true⟩
    (.password "user" "pw")
    ⟨"mail.example.com", 143, false, ImapAuth.passAuth "user" "pw"⟩
    rfl).2.1

end StinaMail
